import Mathlib

/-!
# Verification of the js-utils helper library

Shallow embedding of the utility functions of the `js-utils` repository
(format, validation, random, array and date modules) together with proofs
about them.  JavaScript strings are modelled as `List Char`, JavaScript
numbers appearing as array indices / counts as `Int` or `Nat`, and the
platform pseudo-random source (`Math.random`) as an input stream of
rational draws in `[0, 1)`.
-/

namespace JsUtils

/-- JavaScript strings are modelled as lists of UTF-16-ish characters. -/
abbrev JStr := List Char

/-! ## `Array.prototype.slice` / `String.prototype.slice`

`slice(s, e)` resolves a negative index `i` to `length + i`, then clamps
both resolved indices into `[0, length]` and returns the elements of the
half-open index interval.  Note that `-0` is numerically `0`, so
`slice(-0)` is `slice(0)`, i.e. the whole sequence. -/

def jsSlice (l : List α) (s e : Int) : List α :=
  let len : Int := l.length
  let s' : Int := if s < 0 then max (len + s) 0 else min s len
  let e' : Int := if e < 0 then max (len + e) 0 else min e len
  (l.drop s'.toNat).take (e' - s').toNat

/-! ## `mask` (format module)

```js
export function mask(text, visibleStart = 4, visibleEnd = 4, maskChar = '*') {
    if (text.length <= visibleStart + visibleEnd) { return text; }
    const start = text.slice(0, visibleStart);
    const end = text.slice(-visibleEnd);
    const masked = maskChar.repeat(text.length - visibleStart - visibleEnd);
    return start + masked + end;
}
```
The mask character is modelled as a single `Char`. -/

def mask (text : JStr) (visibleStart visibleEnd : Int) (maskChar : Char) : JStr :=
  if (text.length : Int) ≤ visibleStart + visibleEnd then text
  else
    let first := jsSlice text 0 visibleStart
    let last := jsSlice text (-visibleEnd) text.length
    let masked := List.replicate ((text.length : Int) - visibleStart - visibleEnd).toNat maskChar
    first ++ masked ++ last

/-! ## `formatNumber` (format module)

```js
export function formatNumber(value, separator = ',') {
    return value.toString().replace(/\B(?=(\d{3})+(?!\d))/g, separator);
}
```
The embedding operates on the decimal string produced by `toString`.
The regex is a global zero-width match: the separator is inserted at every
position that is not at a word boundary (`\B`) and whose lookahead
`(\d{3})+(?!\d)` succeeds.  Because `(\d{3})+` can only stop where `(?!\d)`
holds, the lookahead succeeds exactly when the maximal digit run starting
at the position has positive length divisible by three. -/

/-- Regex word characters, the class `[A-Za-z0-9_]` used by `\b`/`\B`. -/
def isWordChar (c : Char) : Bool :=
  ('a' ≤ c && c ≤ 'z') || ('A' ≤ c && c ≤ 'Z') || ('0' ≤ c && c ≤ '9') || c == '_'

/-- Whether the character at (integer) position `i` is a word character;
positions outside the string count as non-word. -/
def wordAt (s : JStr) (i : Int) : Bool :=
  if 0 ≤ i then
    match s.get? i.toNat with
    | some c => isWordChar c
    | none => false
  else false

/-- Regex word boundary `\b` at position `i` (between characters `i - 1` and `i`). -/
def atBoundary (s : JStr) (i : Nat) : Bool :=
  wordAt s ((i : Int) - 1) != wordAt s i

/-- Length of the maximal run of decimal digits at the front of the list. -/
def digitRun : JStr → Nat
  | [] => 0
  | c :: t => if c.isDigit then digitRun t + 1 else 0

/-- The zero-width regex `\B(?=(\d{3})+(?!\d))` matches at position `i`. -/
def thousandsMatch (s : JStr) (i : Nat) : Bool :=
  !atBoundary s i && (let r := digitRun (s.drop i); decide (r ≠ 0 ∧ r % 3 = 0))

/-- `formatNumber`, acting on the decimal string representation of the number. -/
def formatNumber (s : JStr) (separator : JStr) : JStr :=
  (s.enum.map (fun p => (if thousandsMatch s p.1 then separator else []) ++ [p.2])).flatten

/-- C2: `formatNumber` also inserts the separator *inside the fractional
part* whenever the digit run to the right has positive length divisible by
three: on the claim's own example `1234.5678` the code yields
`"1,234.5,678"`, not `"1,234.5678"`.  (On pure integer strings the
insertion is the expected thousands grouping.) -/
theorem formatNumber_fractional_part_bug :
    formatNumber "1234.5678".toList ",".toList = "1,234.5,678".toList ∧
    formatNumber "1234567".toList ",".toList = "1,234,567".toList := by
  decide

/-- C3: evaluation of `mask` at the failing input of the `visibleEnd = 0`
edge case: `slice(-0)` is `slice(0)`, the whole string, so the "masked"
output ends with the complete input text and is longer than the input,
contradicting the keep/mask/keep description. -/
theorem mask_visibleEnd_zero_bug :
    mask "123456".toList 2 0 '*' = "12****123456".toList ∧
    ("12****123456".toList.length ≠ "123456".toList.length) := by
  decide

/-! ## `isValidCreditCard` (validation module)

```js
export function isValidCreditCard(cardNumber) {
    const cleaned = cardNumber.replace(/\s/g, '');
    if (!/^\d+$/.test(cleaned)) { return false; }
    let sum = 0;
    let isEven = false;
    for (let i = cleaned.length - 1; i >= 0; i--) {
        let digit = parseInt(cleaned[i], 10);
        if (isEven) { digit *= 2; if (digit > 9) { digit -= 9; } }
        sum += digit;
        isEven = !isEven;
    }
    return sum % 10 === 0;
}
```
-/

/-- The character class `\s` of JavaScript regexes: ASCII whitespace plus
the Unicode space separators, line/paragraph separators and the BOM. -/
def isJsWhitespace (c : Char) : Bool :=
  c == ' ' || c == '\t' || c == '\n' || c == '\r' || c == '\x0b' || c == '\x0c' ||
    c == '\u00A0' || c == '\u1680' || ('\u2000' ≤ c && c ≤ '\u200A') ||
    c == '\u2028' || c == '\u2029' || c == '\u202F' || c == '\u205F' ||
    c == '\u3000' || c == '\uFEFF'

/-- `cardNumber.replace(/\s/g, '')`. -/
def stripWhitespace (s : JStr) : JStr :=
  s.filter (fun c => !isJsWhitespace c)

/-- `parseInt` of a single decimal digit character. -/
def digitVal (c : Char) : Nat := c.toNat - 48

/-- The summation loop of `isValidCreditCard`, processing the cleaned digit
string from its last character (so the argument is the reversed digit list)
with the `isEven` doubling flag threaded through. -/
def luhnLoop : List Nat → Bool → Nat
  | [], _ => 0
  | d :: rest, isEven =>
      (if isEven then (if d * 2 > 9 then d * 2 - 9 else d * 2) else d) + luhnLoop rest (!isEven)

def isValidCreditCard (cardNumber : JStr) : Bool :=
  let cleaned := stripWhitespace cardNumber
  if cleaned.length ≥ 1 && cleaned.all Char.isDigit then
    luhnLoop (cleaned.reverse.map digitVal) false % 10 == 0
  else
    false

/-- The Luhn digit contribution as the spec words it: counting from the
least significant digit (index 0), every second digit from the right
(odd index) is doubled, with 9 subtracted when the doubled value
exceeds 9. -/
def luhnDigit (i : Nat) (d : Nat) : Nat :=
  if i % 2 = 1 then (if d * 2 > 9 then d * 2 - 9 else d * 2) else d

/-- The Luhn digit sum as the spec words it, over the list of digits given
least significant first. -/
def luhnSpecSum (ds : List Nat) : Nat :=
  (ds.enum.map (fun p => luhnDigit p.1 p.2)).sum

theorem luhnLoop_eq_spec (ds : List Nat) (n : Nat) :
    luhnLoop ds (decide (n % 2 = 1)) =
      ((List.enumFrom n ds).map (fun p => luhnDigit p.1 p.2)).sum := by
  induction ds generalizing n with
  | nil => simp [luhnLoop]
  | cons d rest ih =>
    have hflip : (!decide (n % 2 = 1)) = decide ((n + 1) % 2 = 1) := by
      rcases Nat.mod_two_eq_zero_or_one n with h | h <;> simp [Nat.add_mod, h]
    have hhead : (if decide (n % 2 = 1) then (if d * 2 > 9 then d * 2 - 9 else d * 2) else d) =
        luhnDigit n d := by
      simp [luhnDigit]
    simp only [luhnLoop, hflip, ih (n + 1), List.enumFrom, List.map_cons, List.sum_cons, hhead]

/-- C1 counterexample: on the empty string nothing non-digit remains after
stripping whitespace and the Luhn digit sum over no digits is 0, divisible
by 10, yet `isValidCreditCard` returns `false` (its regex `/^\d+$/`
requires at least one digit). -/
theorem isValidCreditCard_empty_counterexample :
    stripWhitespace "".toList = [] ∧
    ([] : JStr).all Char.isDigit = true ∧
    luhnSpecSum (([] : JStr).reverse.map digitVal) % 10 = 0 ∧
    isValidCreditCard "".toList = false := by
  decide

/-- C1 (amended): after stripping embedded whitespace the result is `false`
whenever a non-digit character remains *or no digit at all remains*;
otherwise the result is `true` iff the Luhn digit sum (doubling every
second digit from the right, subtracting 9 above 9) is divisible by 10.
The three concrete card numbers of the claim evaluate as stated. -/
theorem isValidCreditCard_luhn :
    (∀ s : JStr,
      isValidCreditCard s = true ↔
        (stripWhitespace s ≠ [] ∧ (stripWhitespace s).all Char.isDigit = true ∧
          luhnSpecSum ((stripWhitespace s).reverse.map digitVal) % 10 = 0)) ∧
    isValidCreditCard "4532015112830366".toList = true ∧
    isValidCreditCard "6011000990139424".toList = true ∧
    isValidCreditCard "1234567890123456".toList = false := by
  refine ⟨?_, by decide, by decide, by decide⟩
  intro s
  have hspec : luhnLoop ((stripWhitespace s).reverse.map digitVal) false =
      luhnSpecSum ((stripWhitespace s).reverse.map digitVal) := by
    have h := luhnLoop_eq_spec ((stripWhitespace s).reverse.map digitVal) 0
    simpa [luhnSpecSum, List.enum] using h
  constructor
  · intro h
    simp only [isValidCreditCard] at h
    by_cases hc : (stripWhitespace s).length ≥ 1 ∧ (stripWhitespace s).all Char.isDigit = true
    · refine ⟨?_, hc.2, ?_⟩
      · intro hnil
        rw [hnil] at hc
        simp at hc
      · have := hc
        rw [if_pos (by simp [hc.1, hc.2])] at h
        rw [← hspec]
        simpa using h
    · exfalso
      rw [if_neg ?_] at h
      · exact Bool.false_ne_true h
      · intro hcontr
        simp only [Bool.and_eq_true, decide_eq_true_eq] at hcontr
        exact hc ⟨hcontr.1, hcontr.2⟩
  · rintro ⟨hne, hdig, hsum⟩
    have hlen : (stripWhitespace s).length ≥ 1 := by
      cases hs : stripWhitespace s with
      | nil => exact absurd hs hne
      | cons a t => simp [hs]
    simp only [isValidCreditCard]
    rw [if_pos (by simp [hlen, hdig])]
    rw [hspec]
    simpa using hsum

/-! ## `validatePassword` (validation module)

```js
export function validatePassword(password, options = {}) {
    const { minLength = 8, requireUppercase = true, requireLowercase = true,
            requireNumbers = true, requireSpecialChars = true } = options;
    const errors = [];
    if (password.length < minLength) {
        errors.push(`Password must be at least ${minLength} characters long`); }
    if (requireUppercase && !/[A-Z]/.test(password)) {
        errors.push('Password must contain at least one uppercase letter'); }
    if (requireLowercase && !/[a-z]/.test(password)) {
        errors.push('Password must contain at least one lowercase letter'); }
    if (requireNumbers && !/\d/.test(password)) {
        errors.push('Password must contain at least one number'); }
    if (requireSpecialChars && !/[!@#$%^&*(),.?":{}|<>]/.test(password)) {
        errors.push('Password must contain at least one special character'); }
    return { isValid: errors.length === 0, errors };
}
```
Optional properties of the options object are modelled as `Option` fields,
with the defaults applied by `getD` exactly where the destructuring
applies them. -/

structure PasswordOptions where
  minLength : Option Nat
  requireUppercase : Option Bool
  requireLowercase : Option Bool
  requireNumbers : Option Bool
  requireSpecialChars : Option Bool

structure PasswordResult where
  isValid : Bool
  errors : List String
deriving DecidableEq

/-- The character class `[!@#$%^&*(),.?":{}|<>]` of the special-character check. -/
def passwordSpecialChars : JStr :=
  ['!', '@', '#', '$', '%', '^', '&', '*', '(', ')', ',', '.', '?', '"', ':',
    '\x7b', '\x7d', '|', '<', '>']

def hasUppercaseChar (password : JStr) : Bool := password.any (fun c => 'A' ≤ c && c ≤ 'Z')

def hasLowercaseChar (password : JStr) : Bool := password.any (fun c => 'a' ≤ c && c ≤ 'z')

def hasDigitChar (password : JStr) : Bool := password.any Char.isDigit

def hasSpecialChar (password : JStr) : Bool := password.any passwordSpecialChars.contains

def validatePassword (password : JStr) (options : PasswordOptions) : PasswordResult :=
  let minLength := options.minLength.getD 8
  let requireUppercase := options.requireUppercase.getD true
  let requireLowercase := options.requireLowercase.getD true
  let requireNumbers := options.requireNumbers.getD true
  let requireSpecialChars := options.requireSpecialChars.getD true
  let errors : List String := []
  let errors := if password.length < minLength then
      errors ++ [s!"Password must be at least {minLength} characters long"] else errors
  let errors := if requireUppercase && !hasUppercaseChar password then
      errors ++ ["Password must contain at least one uppercase letter"] else errors
  let errors := if requireLowercase && !hasLowercaseChar password then
      errors ++ ["Password must contain at least one lowercase letter"] else errors
  let errors := if requireNumbers && !hasDigitChar password then
      errors ++ ["Password must contain at least one number"] else errors
  let errors := if requireSpecialChars && !hasSpecialChar password then
      errors ++ ["Password must contain at least one special character"] else errors
  { isValid := errors.length == 0, errors := errors }

/-- The five checks in the fixed order of the spec
(length → uppercase → lowercase → numbers → special characters), each as a
(fails, message) pair. -/
def passwordChecks (password : JStr) (options : PasswordOptions) : List (Bool × String) :=
  let minLength := options.minLength.getD 8
  [(password.length < minLength,
      s!"Password must be at least {minLength} characters long"),
   (options.requireUppercase.getD true && !hasUppercaseChar password,
      "Password must contain at least one uppercase letter"),
   (options.requireLowercase.getD true && !hasLowercaseChar password,
      "Password must contain at least one lowercase letter"),
   (options.requireNumbers.getD true && !hasDigitChar password,
      "Password must contain at least one number"),
   (options.requireSpecialChars.getD true && !hasSpecialChar password,
      "Password must contain at least one special character")]

/-- C5: the errors list is exactly the messages of the enabled checks that
fail, in the fixed order length → uppercase → lowercase → numbers →
special characters; `isValid` is `true` iff the errors list is empty; and
an absent options object behaves as all checks enabled with
`minLength = 8`. -/
theorem validatePassword_errors_ordered :
    (∀ (password : JStr) (options : PasswordOptions),
      (validatePassword password options).errors =
        ((passwordChecks password options).filter (fun p => p.1)).map (fun p => p.2) ∧
      ((validatePassword password options).isValid = true ↔
        (validatePassword password options).errors = [])) ∧
    (∀ password : JStr,
      validatePassword password ⟨none, none, none, none, none⟩ =
        validatePassword password ⟨some 8, some true, some true, some true, some true⟩) := by
  refine ⟨fun password options => ?_, fun _ => rfl⟩
  have hlen : ∀ l : List String, ((l.length == 0) = true ↔ l = []) := by
    intro l
    cases l <;> simp
  constructor
  · simp only [validatePassword, passwordChecks]
    split_ifs <;> simp_all
  · exact hlen _

/-! ## `diffInDays` (date module)

```js
export function diffInDays(date1, date2) {
  const msPerDay = 24 * 60 * 60 * 1000;
  const utc1 = Date.UTC(date1.getFullYear(), date1.getMonth(), date1.getDate());
  const utc2 = Date.UTC(date2.getFullYear(), date2.getMonth(), date2.getDate());
  return Math.floor((utc1 - utc2) / msPerDay);
}
```
A platform `Date` is modelled by its local calendar fields as read by
`getFullYear` / `getMonth` (0-based) / `getDate`.  `Date.UTC(y, m, d)` with
no time-of-day arguments is `MakeDay(y, m, d) * msPerDay`, embedded below
following the ECMAScript `MakeDay` / `DayFromYear` / `InLeapYear`
algorithms (floor division throughout). -/

/-- Local calendar fields of a platform `Date` value. -/
structure JsDate where
  year : Int
  month : Int
  day : Int

def msPerDay : Int := 24 * 60 * 60 * 1000

/-- ECMAScript `DayFromYear`. -/
def dayFromYear (y : Int) : Int :=
  365 * (y - 1970) + Int.fdiv (y - 1969) 4 - Int.fdiv (y - 1901) 100 + Int.fdiv (y - 1601) 400

/-- The Gregorian leap-year rule (ECMAScript `InLeapYear`). -/
def inLeapYear (y : Int) : Bool :=
  (y % 4 == 0 && y % 100 != 0) || y % 400 == 0

/-- First day-within-year of each month of a non-leap year. -/
def monthOffsets : List Int :=
  [0, 31, 59, 90, 120, 151, 181, 212, 243, 273, 304, 334]

/-- ECMAScript `MakeDay(y, m, d)`: day number of the given UTC calendar
date, with month overflow normalized into the year. -/
def makeDay (y m d : Int) : Int :=
  let ym := y + Int.fdiv m 12
  let mn := Int.emod m 12
  let leapAdj : Int := if 2 ≤ mn ∧ inLeapYear ym then 1 else 0
  dayFromYear ym + monthOffsets.getD mn.toNat 0 + leapAdj + (d - 1)

/-- `Date.UTC(d.getFullYear(), d.getMonth(), d.getDate())`: the UTC-midnight
timestamp of the date's calendar day. -/
def utcMidnight (dt : JsDate) : Int :=
  makeDay dt.year dt.month dt.day * msPerDay

def diffInDays (date1 date2 : JsDate) : Int :=
  Int.fdiv (utcMidnight date1 - utcMidnight date2) msPerDay

/-- C7: `diffInDays` is antisymmetric, and indeed the difference of the two
UTC-midnight-normalized timestamps is always an exact multiple of
`msPerDay`, so the floor division loses nothing. -/
theorem diffInDays_antisymm :
    ∀ a b : JsDate,
      diffInDays a b = -diffInDays b a ∧ msPerDay ∣ (utcMidnight a - utcMidnight b) := by
  intro a b
  have hms : msPerDay ≠ 0 := by decide
  have key : ∀ x y : JsDate,
      diffInDays x y = makeDay x.year x.month x.day - makeDay y.year y.month y.day := by
    intro x y
    have : utcMidnight x - utcMidnight y =
        (makeDay x.year x.month x.day - makeDay y.year y.month y.day) * msPerDay := by
      simp only [utcMidnight]
      ring
    rw [diffInDays, this, Int.mul_fdiv_cancel _ hms]
  refine ⟨by rw [key, key]; ring, ?_⟩
  refine ⟨makeDay a.year a.month a.day - makeDay b.year b.month b.day, ?_⟩
  simp only [utcMidnight]
  ring

/-! ## `escapeHtml` / `unescapeHtml` (format module)

```js
export function escapeHtml(text) {
    const map = { '&': '&amp;', '<': '&lt;', '>': '&gt;', '"': '&quot;', "'": '&#039;' };
    return text.replace(/[&<>"']/g, (char) => map[char]);
}
export function unescapeHtml(text) {
    const map = { '&amp;': '&', '&lt;': '<', '&gt;': '>', '&quot;': '"', '&#039;': "'" };
    return text.replace(/&amp;|&lt;|&gt;|&quot;|&#039;/g, (entity) => map[entity]);
}
```
`escapeHtml` is a per-character replacement; `unescapeHtml` is a
left-to-right scan that, at each position, replaces the first alternative
of the regex that matches (the five alternatives are pairwise
prefix-incompatible) and otherwise copies the character. -/

/-- The entity for one character of the class `[&<>"']`, or the character
itself when it is not in the class. -/
def escapeChar (c : Char) : JStr :=
  if c = '&' then "&amp;".toList
  else if c = '<' then "&lt;".toList
  else if c = '>' then "&gt;".toList
  else if c = '"' then "&quot;".toList
  else if c = '\x27' then "&#039;".toList
  else [c]

def escapeHtml : JStr → JStr
  | [] => []
  | c :: t => escapeChar c ++ escapeHtml t

def unescapeHtml : JStr → JStr
  | [] => []
  | c :: t =>
    if c = '&' then
      if t.take 4 = ['a', 'm', 'p', ';'] then '&' :: unescapeHtml (t.drop 4)
      else if t.take 3 = ['l', 't', ';'] then '<' :: unescapeHtml (t.drop 3)
      else if t.take 3 = ['g', 't', ';'] then '>' :: unescapeHtml (t.drop 3)
      else if t.take 5 = ['q', 'u', 'o', 't', ';'] then '"' :: unescapeHtml (t.drop 5)
      else if t.take 5 = ['#', '0', '3', '9', ';'] then '\x27' :: unescapeHtml (t.drop 5)
      else c :: unescapeHtml t
    else c :: unescapeHtml t
termination_by l => l.length
decreasing_by
  all_goals simp [List.length_drop]
  all_goals omega

/-- C8: round-trip of the HTML escapers — `unescapeHtml (escapeHtml s) = s`
for every string `s`. -/
theorem unescapeHtml_escapeHtml :
    ∀ s : JStr, unescapeHtml (escapeHtml s) = s := by
  intro s
  induction s with
  | nil => simp [escapeHtml, unescapeHtml]
  | cons c t ih =>
    by_cases h1 : c = '&'
    · subst h1
      simp [escapeHtml, escapeChar, unescapeHtml, ih]
    by_cases h2 : c = '<'
    · subst h2
      simp +decide [escapeHtml, escapeChar, unescapeHtml, ih]
    by_cases h3 : c = '>'
    · subst h3
      simp +decide [escapeHtml, escapeChar, unescapeHtml, ih]
    by_cases h4 : c = '"'
    · subst h4
      simp +decide [escapeHtml, escapeChar, unescapeHtml, ih]
    by_cases h5 : c = '\x27'
    · subst h5
      simp +decide [escapeHtml, escapeChar, unescapeHtml, ih]
    · simp [escapeHtml, escapeChar, h1, h2, h3, h4, h5, unescapeHtml, ih]

/-! ## `paginate` (array module)

```js
export function paginate(array, page, pageSize) {
    const totalItems = array.length;
    const totalPages = Math.ceil(totalItems / pageSize);
    const startIndex = (page - 1) * pageSize;
    const endIndex = startIndex + pageSize;
    const data = array.slice(startIndex, endIndex);
    return { data, page, pageSize, totalPages, totalItems };
}
```
`Math.ceil(a / b)` on integers is `-⌊-a / b⌋`, embedded with `Int.fdiv`
(the formula agrees with the platform for every nonzero `pageSize`;
`pageSize = 0` gives an infinite quotient on the platform and is outside
every claim considered here). -/

structure PaginateResult (α : Type) where
  data : List α
  page : Int
  pageSize : Int
  totalPages : Int
  totalItems : Int

def paginate (array : List α) (page pageSize : Int) : PaginateResult α :=
  let totalItems : Int := array.length
  let totalPages : Int := -(Int.fdiv (-totalItems) pageSize)
  let startIndex := (page - 1) * pageSize
  let endIndex := startIndex + pageSize
  { data := jsSlice array startIndex endIndex,
    page := page, pageSize := pageSize,
    totalPages := totalPages, totalItems := totalItems }

/-- C4 counterexample: for `page = -1` (a page outside the valid range) the
slice indices are negative, JavaScript resolves them from the *end* of the
array, and the data field is *not* empty:
`paginate([1,2,3,4,5], -1, 2).data` is `[2, 3]`. -/
theorem paginate_negative_page_counterexample :
    (paginate ([1, 2, 3, 4, 5] : List Int) (-1) 2).data = [2, 3] ∧
    ((-1 : Int) ≤ 0 ∧ ([2, 3] : List Int) ≠ []) := by
  decide

/-- C4 (amended): for every `page ≥ 1` and `pageSize ≥ 1`, `paginate`
returns `totalItems` = length, `totalPages` = the ceiling of
`totalItems / pageSize` (characterized order-theoretically), and `data` =
the slice `[(page-1)*pageSize, page*pageSize)` clamped by slice semantics,
which is empty for every `page > totalPages`; no error is raised (the
function is total).  For `page ≤ 0` the negative slice indices count from
the end of the array instead and the data field can be non-empty. -/
theorem paginate_spec :
    ∀ {α : Type} (l : List α) (page pageSize : Int),
      1 ≤ page → 1 ≤ pageSize →
      (paginate l page pageSize).page = page ∧
      (paginate l page pageSize).pageSize = pageSize ∧
      (paginate l page pageSize).totalItems = l.length ∧
      ((paginate l page pageSize).totalPages - 1) * pageSize < l.length ∧
      (l.length : Int) ≤ (paginate l page pageSize).totalPages * pageSize ∧
      (paginate l page pageSize).data =
        (l.drop ((page - 1) * pageSize).toNat).take pageSize.toNat ∧
      ((paginate l page pageSize).totalPages < page → (paginate l page pageSize).data = []) := by
  intro α l page pageSize hpage hps
  have hps0 : (0 : Int) < pageSize := by omega
  set len : Int := (l.length : Int) with hlen
  have hlen0 : 0 ≤ len := by positivity
  -- ceiling bounds for totalPages = -⌊-len / pageSize⌋
  set q : Int := Int.fdiv (-len) pageSize with hq
  have hdecomp : (-len).fmod pageSize + pageSize * q = -len := Int.fmod_add_fdiv (-len) pageSize
  have hr0 : 0 ≤ (-len).fmod pageSize := Int.fmod_nonneg' (-len) hps0
  have hrlt : (-len).fmod pageSize < pageSize := Int.fmod_lt_of_pos (-len) hps0
  have htp : (paginate l page pageSize).totalPages = -q := rfl
  have hbound1 : (-q - 1) * pageSize < len := by nlinarith
  have hbound2 : len ≤ -q * pageSize := by nlinarith
  -- the data slice
  have hstart0 : 0 ≤ (page - 1) * pageSize := mul_nonneg (by omega) (by omega)
  have hdata : (paginate l page pageSize).data =
      (l.drop ((page - 1) * pageSize).toNat).take pageSize.toNat := by
    show jsSlice l ((page - 1) * pageSize) ((page - 1) * pageSize + pageSize) = _
    set s : Int := (page - 1) * pageSize with hs
    simp only [jsSlice, if_neg (by omega : ¬s < 0), if_neg (by omega : ¬s + pageSize < 0),
      ← hlen]
    by_cases hcase : s < len
    · rw [min_eq_left (le_of_lt hcase)]
      rw [List.take_eq_take]
      simp only [List.length_drop]
      omega
    · have h1 : min s len = len := min_eq_right (by omega)
      have h2 : l.drop (len.toNat) = [] := by
        apply List.drop_eq_nil_of_le
        omega
      have h3 : l.drop s.toNat = [] := by
        apply List.drop_eq_nil_of_le
        omega
      rw [h1, h2, h3]
      simp
  refine ⟨rfl, rfl, rfl, ?_, ?_, hdata, ?_⟩
  · rw [htp]; exact hbound1
  · rw [htp]; exact hbound2
  · intro hover
    rw [htp] at hover
    rw [hdata]
    have hge : len ≤ (page - 1) * pageSize := by nlinarith
    have : l.drop ((page - 1) * pageSize).toNat = [] := by
      apply List.drop_eq_nil_of_le
      omega
    rw [this]
    simp

/-- C4 witness: the amended theorem at the concrete example of the claim,
`paginate([1,2,3,4,5], 1, 2)`. -/
theorem paginate_spec_witness :
    (1 : Int) ≤ 1 ∧ (1 : Int) ≤ 2 ∧
    (paginate ([1, 2, 3, 4, 5] : List Int) 1 2).data = [1, 2] ∧
    (paginate ([1, 2, 3, 4, 5] : List Int) 1 2).page = 1 ∧
    (paginate ([1, 2, 3, 4, 5] : List Int) 1 2).pageSize = 2 ∧
    (paginate ([1, 2, 3, 4, 5] : List Int) 1 2).totalPages = 3 ∧
    (paginate ([1, 2, 3, 4, 5] : List Int) 1 2).totalItems = 5 := by
  have h := paginate_spec ([1, 2, 3, 4, 5] : List Int) 1 2 (by norm_num) (by norm_num)
  refine ⟨by norm_num, by norm_num, ?_, h.1, h.2.1, by decide, h.2.2.1⟩
  rw [h.2.2.2.2.2.1]
  decide

/-! ## `chunk` (array module)

```js
export function chunk(array, size) {
    const chunks = [];
    for (let i = 0; i < array.length; i += size) {
        chunks.push(array.slice(i, i + size));
    }
    return chunks;
}
```
The loop is embedded with explicit fuel: `chunkLoop` performs at most
`fuel` iterations and answers `none` when the fuel runs out before the
loop guard fails.  The loop terminates exactly when *some* fuel suffices,
so "the loop never terminates" is "`none` for every fuel". -/

def chunkLoop (l : List α) (size : Int) : Nat → Int → List (List α) → Option (List (List α))
  | 0, _, _ => none
  | fuel + 1, i, acc =>
      if i < (l.length : Int) then
        chunkLoop l size fuel (i + size) (acc ++ [jsSlice l i (i + size)])
      else
        some acc

/-- `chunk`, run with enough fuel for every terminating execution
(`size ≥ 1` advances `i` by at least 1 per iteration, so `length + 1`
steps always reach the guard). -/
def chunk (l : List α) (size : Int) : Option (List (List α)) :=
  chunkLoop l size (l.length + 1) 0 []

/-- Reference windowing: split into windows of `size` elements, the last
window possibly shorter.  (The `size = 0` equation is never used; it makes
the recursion well-founded.) -/
def chunksRec : Nat → List α → List (List α)
  | _, [] => []
  | 0, _ :: _ => []
  | s + 1, x :: xs => ((x :: xs).take (s + 1)) :: chunksRec (s + 1) ((x :: xs).drop (s + 1))
termination_by _ l => l.length
decreasing_by
  simp only [List.length_drop, List.length_cons]
  omega

theorem chunksRec_cons (s : Nat) (m : List α) (hm : m ≠ []) (hs : 1 ≤ s) :
    chunksRec s m = m.take s :: chunksRec s (m.drop s) := by
  cases m with
  | nil => exact absurd rfl hm
  | cons x xs =>
    cases s with
    | zero => omega
    | succ s => simp [chunksRec]

theorem chunksRec_ne_nil (s : Nat) (m : List α) (hm : m ≠ []) (hs : 1 ≤ s) :
    chunksRec s m ≠ [] := by
  rw [chunksRec_cons s m hm hs]
  simp

/-- In-loop slices agree with the reference windows. -/
theorem jsSlice_window (l : List α) (i size : Int) (hi : 0 ≤ i) (hil : i < (l.length : Int))
    (hsz : 1 ≤ size) :
    jsSlice l i (i + size) = (l.drop i.toNat).take size.toNat := by
  simp only [jsSlice, if_neg (by omega : ¬i < 0), if_neg (by omega : ¬i + size < 0)]
  have h1 : min i (l.length : Int) = i := min_eq_left (le_of_lt hil)
  rw [h1, List.take_eq_take]
  simp only [List.length_drop]
  omega

theorem chunkLoop_run (l : List α) (size : Int) (hsz : 1 ≤ size) :
    ∀ (fuel : Nat) (i : Int) (acc : List (List α)), 0 ≤ i → l.length - i.toNat < fuel →
      chunkLoop l size fuel i acc = some (acc ++ chunksRec size.toNat (l.drop i.toNat)) := by
  intro fuel
  induction fuel with
  | zero =>
    intro i acc hi hfuel
    omega
  | succ fuel ih =>
    intro i acc hi hfuel
    by_cases hguard : i < (l.length : Int)
    · rw [chunkLoop, if_pos hguard,
        ih (i + size) (acc ++ [jsSlice l i (i + size)]) (by omega) (by omega)]
      have hstep : chunksRec size.toNat (l.drop i.toNat) =
          jsSlice l i (i + size) :: chunksRec size.toNat (l.drop (i + size).toNat) := by
        rw [chunksRec_cons size.toNat (l.drop i.toNat) ?_ (by omega)]
        · rw [jsSlice_window l i size hi hguard hsz]
          rw [List.drop_drop]
          have harg : (i + size).toNat = i.toNat + size.toNat := by omega
          rw [harg]
        · intro hnil
          have := congrArg List.length hnil
          simp only [List.length_drop, List.length_nil] at this
          omega
      rw [hstep]
      simp
    · rw [chunkLoop, if_neg hguard]
      have hdrop : l.drop i.toNat = [] := List.drop_eq_nil_of_le (by omega)
      rw [hdrop]
      simp [chunksRec]

theorem chunkLoop_diverges (l : List α) (size : Int) (hsz : size ≤ 0) (hl : l ≠ []) :
    ∀ (fuel : Nat) (i : Int) (acc : List (List α)), i ≤ 0 →
      chunkLoop l size fuel i acc = none := by
  have hlen : 1 ≤ l.length := List.length_pos.mpr hl
  intro fuel
  induction fuel with
  | zero => intro i acc _; rfl
  | succ fuel ih =>
    intro i acc hi
    rw [chunkLoop, if_pos (by omega : i < (l.length : Int))]
    exact ih (i + size) _ (by omega)

theorem chunksRec_flatten (s : Nat) (hs : 1 ≤ s) :
    ∀ (n : Nat) (l : List α), l.length ≤ n → (chunksRec s l).flatten = l := by
  intro n
  induction n with
  | zero =>
    intro l hl
    have : l = [] := List.eq_nil_of_length_eq_zero (by omega)
    simp [this, chunksRec]
  | succ n ih =>
    intro l hl
    by_cases hnil : l = []
    · simp [hnil, chunksRec]
    · rw [chunksRec_cons s l hnil hs]
      have hlt : 1 ≤ l.length := List.length_pos.mpr hnil
      rw [List.flatten_cons, ih (l.drop s) (by simp [List.length_drop]; omega)]
      exact List.take_append_drop s l

theorem chunksRec_windows (s : Nat) (hs : 1 ≤ s) :
    ∀ (n : Nat) (l : List α), l.length ≤ n →
      (∀ w ∈ chunksRec s l, 0 < w.length ∧ w.length ≤ s) ∧
      (∀ w ∈ (chunksRec s l).dropLast, w.length = s) := by
  intro n
  induction n with
  | zero =>
    intro l hl
    have : l = [] := List.eq_nil_of_length_eq_zero (by omega)
    simp [this, chunksRec]
  | succ n ih =>
    intro l hl
    by_cases hnil : l = []
    · simp [hnil, chunksRec]
    · have hlt : 1 ≤ l.length := List.length_pos.mpr hnil
      have ihd := ih (l.drop s) (by simp [List.length_drop]; omega)
      rw [chunksRec_cons s l hnil hs]
      constructor
      · intro w hw
        rcases List.mem_cons.mp hw with hw | hw
        · subst hw
          simp only [List.length_take]
          omega
        · exact ihd.1 w hw
      · intro w hw
        by_cases hrest : chunksRec s (l.drop s) = []
        · rw [hrest] at hw
          simp at hw
        · rw [List.dropLast_cons_of_ne_nil hrest] at hw
          rcases List.mem_cons.mp hw with hw | hw
          · subst hw
            have hdrop_ne : l.drop s ≠ [] := by
              intro hc
              exact hrest (by simp [hc, chunksRec])
            have : s < l.length := by
              by_contra hge
              exact hdrop_ne (List.drop_eq_nil_of_le (by omega))
            simp only [List.length_take]
            omega
          · exact ihd.2 w hw

/-- C10: for every `size ≥ 1` the loop of `chunk` terminates (within
`length + 1` iterations) and returns windows that are nonempty, of length
at most `size`, all of them except possibly the last of length exactly
`size`, and whose concatenation is the input array.  For `size ≤ 0` and a
nonempty array the loop guard never fails: no amount of fuel makes the
loop finish. -/
theorem chunk_termination :
    (∀ {α : Type} (l : List α) (size : Int), 1 ≤ size →
      chunk l size = some (chunksRec size.toNat l) ∧
      (chunksRec size.toNat l).flatten = l ∧
      (∀ w ∈ chunksRec size.toNat l, 0 < w.length ∧ w.length ≤ size.toNat) ∧
      (∀ w ∈ (chunksRec size.toNat l).dropLast, w.length = size.toNat)) ∧
    (∀ {α : Type} (l : List α) (size : Int), size ≤ 0 → l ≠ [] →
      ∀ (fuel : Nat) (acc : List (List α)), chunkLoop l size fuel 0 acc = none) := by
  constructor
  · intro α l size hsz
    have hrun := chunkLoop_run l size hsz (l.length + 1) 0 [] (by omega) (by omega)
    have hwin := chunksRec_windows size.toNat (by omega) l.length l (le_refl _)
    refine ⟨?_, chunksRec_flatten size.toNat (by omega) l.length l (le_refl _), hwin.1, hwin.2⟩
    rw [chunk, hrun]
    simp
  · intro α l size hsz hl fuel acc
    exact chunkLoop_diverges l size hsz hl fuel 0 acc (le_refl 0)

/-- C10 witness: the terminating half at `chunk([1,2,3,4,5], 2)` and the
diverging half at array `[1]`, `size = 0`, with 100 units of fuel. -/
theorem chunk_termination_witness :
    chunk ([1, 2, 3, 4, 5] : List Int) 2 = some [[1, 2], [3, 4], [5]] ∧
    chunkLoop ([1] : List Int) 0 100 0 [] = none := by
  constructor
  · have h := chunk_termination.1 ([1, 2, 3, 4, 5] : List Int) 2 (by norm_num)
    rw [h.1]
    have htwo : Int.toNat 2 = 2 := rfl
    rw [htwo]
    have h1 : chunksRec 2 ([1, 2, 3, 4, 5] : List Int) = [1, 2] :: chunksRec 2 [3, 4, 5] := by
      rw [chunksRec_cons 2 _ (by decide) (by decide)]
      rfl
    have h2 : chunksRec 2 ([3, 4, 5] : List Int) = [3, 4] :: chunksRec 2 [5] := by
      rw [chunksRec_cons 2 _ (by decide) (by decide)]
      rfl
    have h3 : chunksRec 2 ([5] : List Int) = [5] :: chunksRec 2 [] := by
      rw [chunksRec_cons 2 _ (by decide) (by decide)]
      rfl
    have h4 : chunksRec 2 ([] : List Int) = [] := by
      simp [chunksRec]
    rw [h1, h2, h3, h4]
  · exact chunk_termination.2 ([1] : List Int) 0 (by norm_num) (by decide) 100 []

/-! ## Random module

`Math.random()` is modelled as an input stream `r : Nat → ℚ` of draws:
the call consuming draw number `k` reads `r k`.  A valid stream has every
draw in `[0, 1)`.

```js
export function randomInt(max) { return Math.floor(Math.random() * max); }
export function randomString(length, charset) {
  let result = '';
  for (let i = 0; i < length; i++) { result += charset[randomInt(charset.length)]; }
  return result;
}
```
-/

/-- `randomInt(max)` applied to the draw `x`. -/
def randomInt (max : Int) (x : ℚ) : Int := Int.floor (x * max)

/-- `randomString(length, charset)`, iteration `i` consuming draw `i`.
Out-of-range indexing (only reachable on an empty charset, which every
caller guards) is given the default `' '`. -/
def randomString (len : Nat) (charset : JStr) (r : Nat → ℚ) : JStr :=
  (List.range len).map (fun i => charset.getD (randomInt charset.length (r i)).toNat ' ')

/-- The four character-class toggles of `randomPassword`'s options object. -/
structure RandomPasswordOptions where
  uppercase : Option Bool
  lowercase : Option Bool
  numbers : Option Bool
  special : Option Bool

def lowercaseChars : JStr := "abcdefghijklmnopqrstuvwxyz".toList

def uppercaseChars : JStr := "ABCDEFGHIJKLMNOPQRSTUVWXYZ".toList

def numberChars : JStr := "0123456789".toList

def specialPasswordChars : JStr := "!@#$%^&*()_+-=[]\x7b\x7d|;:,.<>?".toList

/-- The charset assembled by `randomPassword` from its toggles, in source
order (lowercase, uppercase, numbers, special). -/
def passwordCharset (options : RandomPasswordOptions) : JStr :=
  (if options.lowercase.getD true then lowercaseChars else []) ++
    (if options.uppercase.getD true then uppercaseChars else []) ++
    (if options.numbers.getD true then numberChars else []) ++
    (if options.special.getD true then specialPasswordChars else [])

/-- `randomPassword`:

```js
export function randomPassword(length, options = {}) {
  const { uppercase = true, lowercase = true, numbers = true, special = true } = options;
  let charset = '';
  if (lowercase) charset += 'abcdefghijklmnopqrstuvwxyz';
  if (uppercase) charset += 'ABCDEFGHIJKLMNOPQRSTUVWXYZ';
  if (numbers) charset += '0123456789';
  if (special) charset += '!@#$%^&*()_+-=[]\x7b\x7d|;:,.<>?';
  if (charset.length === 0) { throw new Error('At least one character type must be enabled'); }
  return randomString(length, charset);
}
```
The thrown fault is modelled with `Except.error`. -/
def randomPassword (len : Nat) (options : RandomPasswordOptions) (r : Nat → ℚ) :
    Except String JStr :=
  let charset := passwordCharset options
  if charset.length = 0 then Except.error "At least one character type must be enabled"
  else Except.ok (randomString len charset r)

theorem getD_mem_of_lt (l : List α) (n : Nat) (d : α) (h : n < l.length) : l.getD n d ∈ l := by
  rw [List.getD_eq_getElem?_getD, List.getElem?_eq_getElem h]
  simp only [Option.getD_some]
  exact List.get_mem l n h

/-- A draw in `[0, 1)` turned into an index by `randomInt` hits the charset. -/
theorem randomInt_toNat_lt (L : Nat) (hL : 0 < L) (x : ℚ) (_h0 : 0 ≤ x) (h1 : x < 1) :
    (randomInt L x).toNat < L := by
  have hxL : x * L < L := by
    calc x * (L : ℚ) < 1 * L := by
          apply mul_lt_mul_of_pos_right h1
          exact_mod_cast hL
    _ = L := one_mul _
  have hfl : Int.floor (x * (((L : Nat) : Int) : ℚ)) < (L : Int) := by
    rw [Int.floor_lt]
    push_cast
    exact_mod_cast hxL
  simp only [randomInt]
  omega

/-- C6: `randomPassword` signals the configuration fault exactly when every
character-class toggle is disabled (empty charset); whenever at least one
class is enabled it returns, without fault, a string of the requested
length all of whose characters come from the union of the enabled
classes. -/
theorem randomPassword_charset_fault :
    ∀ (len : Nat) (options : RandomPasswordOptions) (r : Nat → ℚ),
      ((∃ e, randomPassword len options r = Except.error e) ↔
        (options.uppercase.getD true = false ∧ options.lowercase.getD true = false ∧
          options.numbers.getD true = false ∧ options.special.getD true = false)) ∧
      ((∀ n, 0 ≤ r n ∧ r n < 1) →
        ∀ s, randomPassword len options r = Except.ok s →
          s.length = len ∧ ∀ c ∈ s, c ∈ passwordCharset options) := by
  intro len options r
  have hcs : passwordCharset options = [] ↔
      (options.uppercase.getD true = false ∧ options.lowercase.getD true = false ∧
        options.numbers.getD true = false ∧ options.special.getD true = false) := by
    cases hu : options.uppercase.getD true <;> cases hl : options.lowercase.getD true <;>
      cases hn : options.numbers.getD true <;> cases hsp : options.special.getD true <;>
        simp [passwordCharset, hu, hl, hn, hsp, lowercaseChars, uppercaseChars,
          numberChars, specialPasswordChars]
  constructor
  · constructor
    · rintro ⟨e, he⟩
      by_cases h : (passwordCharset options).length = 0
      · exact hcs.mp (List.eq_nil_of_length_eq_zero h)
      · rw [randomPassword, if_neg h] at he
        exact absurd he (by simp)
    · intro hall
      refine ⟨"At least one character type must be enabled", ?_⟩
      rw [randomPassword, if_pos ?_]
      rw [hcs.mpr hall]
      rfl
  · intro hr s hs
    by_cases h : (passwordCharset options).length = 0
    · rw [randomPassword, if_pos h] at hs
      exact absurd hs (by simp)
    · rw [randomPassword, if_neg h] at hs
      have hs' : s = randomString len (passwordCharset options) r := by
        exact (Except.ok.injEq _ _ ).mp hs.symm
      subst hs'
      constructor
      · simp [randomString]
      · intro c hc
        simp only [randomString, List.mem_map, List.mem_range] at hc
        obtain ⟨i, _, hi⟩ := hc
        subst hi
        apply getD_mem_of_lt
        exact randomInt_toNat_lt _ (by omega) (r i) (hr i).1 (hr i).2

/-- C6 witness: with defaults (all classes enabled) and the constant valid
stream `1/2`, a 3-character password is produced without fault and drawn
from the charset; with every toggle disabled the fault is signalled. -/
theorem randomPassword_charset_fault_witness :
    (∃ s, randomPassword 3 ⟨none, none, none, none⟩ (fun _ => (1 : ℚ)/2) = Except.ok s ∧
      s.length = 3 ∧ ∀ c ∈ s, c ∈ passwordCharset ⟨none, none, none, none⟩) ∧
    (∃ e, randomPassword 3 ⟨some false, some false, some false, some false⟩
      (fun _ => (1 : ℚ)/2) = Except.error e) := by
  have hr : ∀ n : Nat, 0 ≤ ((fun _ => (1 : ℚ)/2) n) ∧ ((fun _ => (1 : ℚ)/2) n) < 1 := by
    intro n
    norm_num
  have h := randomPassword_charset_fault 3 ⟨none, none, none, none⟩ (fun _ => (1 : ℚ)/2)
  have h' := randomPassword_charset_fault 3 ⟨some false, some false, some false, some false⟩
    (fun _ => (1 : ℚ)/2)
  constructor
  · cases hcase : randomPassword 3 ⟨none, none, none, none⟩ (fun _ => (1 : ℚ)/2) with
    | error e =>
      have hall := h.1.mp ⟨e, hcase⟩
      simp at hall
    | ok s =>
      exact ⟨s, rfl, h.2 hr s hcase⟩
  · exact h'.1.mpr (by simp)

/-! ## `shuffle` and `randomElements` (random module)

```js
export function shuffle(array) {
  const result = [...array];
  for (let i = result.length - 1; i > 0; i--) {
    const j = randomInt(i + 1);
    [result[i], result[j]] = [result[j], result[i]];
  }
  return result;
}
export function randomElements(array, count) {
  const shuffled = [...array].sort(() => 0.5 - Math.random());
  return shuffled.slice(0, Math.min(count, array.length));
}
```
-/

/-- Swap the elements at two (valid) positions of a list; out-of-range
positions leave the list unchanged. -/
def listSwap (l : List α) (i j : Nat) : List α :=
  match l.get? i, l.get? j with
  | some a, some b => (l.set i b).set j a
  | _, _ => l

/-- The loop of `shuffle`.  The `Nat` argument is the loop variable `i`
(counting down, guard `i > 0`); `k` is the index of the next unconsumed
draw of the stream. -/
def shuffleLoop (r : Nat → ℚ) : Nat → List α → Nat → List α
  | _, l, 0 => l
  | k, l, i + 1 =>
      shuffleLoop r (k + 1) (listSwap l (i + 1) (randomInt (((i + 1 : Nat) : Int) + 1) (r k)).toNat) i

def shuffle (r : Nat → ℚ) (l : List α) : List α :=
  shuffleLoop r 0 l (l.length - 1)

/-- The reference Fisher–Yates loop, as the spec words it: swap each
element, from the last index downward, with the element at the chosen
earlier-or-equal index `choose i`. -/
def fyRefLoop (choose : Nat → Nat) : List α → Nat → List α
  | l, 0 => l
  | l, i + 1 => fyRefLoop choose (listSwap l (i + 1) (choose (i + 1))) i

/-- Reference Fisher–Yates shuffle of (a copy of) the array, driven by a
choice function. -/
def fisherYatesRef (choose : Nat → Nat) (l : List α) : List α :=
  fyRefLoop choose l (l.length - 1)

/-- The choices the draw stream induces: index `v` of the loop draws
`r (length - 1 - v)` and picks `⌊draw * (v + 1)⌋`. -/
def streamChoices (r : Nat → ℚ) (len : Nat) (v : Nat) : Nat :=
  (randomInt (((v : Nat) : Int) + 1) (r (len - 1 - v))).toNat

/-- Modelled: `[...array].sort(() => 0.5 - Math.random())`.  For an
inconsistent comparator ECMAScript leaves the sort result
implementation-defined, so the embedding fixes one concrete comparison
sort: a stable insertion sort in which every comparator call consumes the
next draw `x` of the stream and answers `0.5 - x`; the inserted element
stays in front as soon as one comparison is not positive.  `insertRand`
returns the list with the element inserted together with the index of the
next unconsumed draw. -/
def insertRand (r : Nat → ℚ) : α → List α → Nat → List α × Nat
  | x, [], k => ([x], k)
  | x, y :: ys, k =>
      if 1/2 - r k > 0 then
        let p := insertRand r x ys (k + 1)
        (y :: p.1, p.2)
      else
        (x :: y :: ys, k + 1)

def sortRand (r : Nat → ℚ) : List α → Nat → List α × Nat
  | [], k => ([], k)
  | x :: xs, k =>
      let p := sortRand r xs k
      insertRand r x p.1 p.2

def randomElements (l : List α) (count : Nat) (r : Nat → ℚ) : List α :=
  (sortRand r l 0).1.take (min count l.length)

theorem shuffleLoop_eq_fyRefLoop (r : Nat → ℚ) :
    ∀ (n k : Nat) (l : List α),
      shuffleLoop r k l n =
        fyRefLoop (fun v => (randomInt (((v : Nat) : Int) + 1) (r (k + n - v))).toNat) l n := by
  intro n
  induction n with
  | zero =>
    intro k l
    rfl
  | succ n ih =>
    intro k l
    rw [shuffleLoop, fyRefLoop]
    have hdraw : k + (n + 1) - (n + 1) = k := by omega
    rw [hdraw]
    rw [ih (k + 1) _]
    have hfun : (fun v => (randomInt (((v : Nat) : Int) + 1) (r (k + 1 + n - v))).toNat) =
        (fun v => (randomInt (((v : Nat) : Int) + 1) (r (k + (n + 1) - v))).toNat) := by
      funext v
      have : k + 1 + n - v = k + (n + 1) - v := by omega
      rw [this]
    rw [hfun]

theorem insertRand_length (r : Nat → ℚ) :
    ∀ (m : List α) (x : α) (k : Nat), (insertRand r x m k).1.length = m.length + 1 := by
  intro m
  induction m with
  | nil => intro x k; rfl
  | cons y ys ih =>
    intro x k
    rw [insertRand]
    by_cases hc : 1/2 - r k > 0
    · rw [if_pos hc]
      simp [ih]
    · rw [if_neg hc]
      simp

theorem sortRand_length (r : Nat → ℚ) :
    ∀ (l : List α) (k : Nat), (sortRand r l k).1.length = l.length := by
  intro l
  induction l with
  | nil => intro k; rfl
  | cons x xs ih =>
    intro k
    rw [sortRand]
    simp [insertRand_length, ih]

/-- C9 (amended): `shuffle` is exactly the reference Fisher–Yates shuffle
driven by the induced stream choices (each a valid earlier-or-equal index
when the stream is valid).  `randomElements`, however, orders a copy with
the platform sort under a random comparator — not Fisher–Yates — and takes
the first `min(count, length)` elements of it, which is in particular a
list of that length. -/
theorem shuffle_is_fisherYates :
    ∀ {α : Type} (l : List α) (count : Nat) (r : Nat → ℚ),
      shuffle r l = fisherYatesRef (streamChoices r l.length) l ∧
      ((∀ n, 0 ≤ r n ∧ r n < 1) → ∀ v : Nat, streamChoices r l.length v ≤ v) ∧
      (randomElements l count r).length = min count l.length := by
  intro α l count r
  refine ⟨?_, ?_, ?_⟩
  · rw [shuffle, fisherYatesRef]
    rw [shuffleLoop_eq_fyRefLoop r (l.length - 1) 0 l]
    have hfun : (fun v => (randomInt (((v : Nat) : Int) + 1) (r (0 + (l.length - 1) - v))).toNat) =
        streamChoices r l.length := by
      funext v
      simp only [streamChoices]
      have : 0 + (l.length - 1) - v = l.length - 1 - v := by omega
      rw [this]
    rw [hfun]
  · intro hr v
    have hbound := randomInt_toNat_lt (v + 1) (by omega) (r (l.length - 1 - v))
      (hr _).1 (hr _).2
    simp only [streamChoices]
    have hcast : (((v : Nat) : Int) + 1) = (((v + 1 : Nat) : Int)) := by push_cast; ring
    rw [hcast]
    omega
  · rw [randomElements]
    rw [List.length_take, sortRand_length]
    omega

/-- C9 witness: the amended theorem instantiated at `[0, 1, 2]`,
`count = 2` and the constant valid stream `1/2`, with the choice bound
taken at index `v = 2`. -/
theorem shuffle_is_fisherYates_witness :
    shuffle (fun _ => (1 : ℚ)/2) ([0, 1, 2] : List Nat) =
      fisherYatesRef (streamChoices (fun _ => (1 : ℚ)/2) 3) [0, 1, 2] ∧
    streamChoices (fun _ => (1 : ℚ)/2) 3 2 ≤ 2 ∧
    (randomElements ([0, 1, 2] : List Nat) 2 (fun _ => (1 : ℚ)/2)).length = min 2 3 := by
  have h := shuffle_is_fisherYates ([0, 1, 2] : List Nat) 2 (fun _ => (1 : ℚ)/2)
  exact ⟨h.1, h.2.1 (fun n => by norm_num) 2, h.2.2⟩

/-- C9 counterexample: with the constant valid stream `3/10`,
`randomElements([0,1,2], 3)` is `[2, 1, 0]` while the first
`min(3, 3) = 3` elements of the Fisher–Yates shuffle driven by the same
stream are `[1, 2, 0]` — `randomElements` is not the prefix of a
Fisher–Yates-shuffled copy. -/
theorem randomElements_not_fisherYates_prefix :
    randomElements ([0, 1, 2] : List Nat) 3 (fun _ => (3 : ℚ)/10) = [2, 1, 0] ∧
    (fisherYatesRef (streamChoices (fun _ => (3 : ℚ)/10) 3) ([0, 1, 2] : List Nat)).take
      (min 3 3) = [1, 2, 0] ∧
    ([2, 1, 0] : List Nat) ≠ [1, 2, 0] := by
  refine ⟨?_, ?_, by decide⟩
  · have hgt : ((1 : ℚ)/2 - 3/10 > 0) := by norm_num
    simp only [randomElements, sortRand, insertRand, if_pos hgt]
    norm_num
  · have hc2 : streamChoices (fun _ => (3 : ℚ)/10) 3 2 = 0 := by
      simp only [streamChoices, randomInt]
      norm_num
    have hc1 : streamChoices (fun _ => (3 : ℚ)/10) 3 1 = 0 := by
      simp only [streamChoices, randomInt]
      norm_num
    simp only [fisherYatesRef, List.length_cons, List.length_nil]
    rw [show (2 + 1 - 1 : Nat) = 2 by norm_num]
    rw [fyRefLoop, hc2]
    rw [fyRefLoop, hc1]
    rw [fyRefLoop]
    decide

end JsUtils
